import Mathlib

/-!
Verification of the function-level complexity engine of
`skills/code-review/scripts/analyze-complexity.ts`.

The TypeScript AST is embedded as a rose tree of `Node`s; each node carries
its kind, its 0-based start and end lines (the values TypeScript's
`getLineAndCharacterOfPosition` returns at `getStart()` / `getEnd()`), and
its children in document order (the nodes `ts.forEachChild` visits).
The analyzer's traversal, the four metric calculators, the aggregation,
classification and sorting logic are translated function by function.
-/

namespace CodeReview

/-- Operator tokens distinguished by `calculateComplexity`: the two
short-circuit operators, and every other binary operator. -/
inductive BinOpKind where
  | andAnd
  | orOr
  | otherOp
deriving DecidableEq, Repr

/-- Syntax-node kinds inspected by the analyzer.  Function-like kinds carry
the data the analyzer reads off such nodes: the optional declared name and
the declared parameter count (`node.parameters.length`).  Variable
declarations and property assignments carry the text of their name, which
`getFunctionName` reads through `node.parent`. -/
inductive NodeKind where
  | ifStmt
  | conditionalExpr
  | whileStmt
  | doStmt
  | forStmt
  | forInStmt
  | forOfStmt
  | caseClause
  | catchClause
  | tryStmt
  | switchStmt
  | binaryExpr (op : BinOpKind)
  | functionDeclaration (name : Option String) (params : Nat)
  | methodDeclaration (name : Option String) (params : Nat)
  | arrowFunction (params : Nat)
  | functionExpression (name : Option String) (params : Nat)
  | variableDeclaration (name : String)
  | propertyAssignment (name : String)
  | sourceFileKind
  | otherKind
deriving DecidableEq, Repr

/-- A parsed syntax node: kind, 0-based start and end lines, and children in
document order. -/
inductive Node where
  | mk (kind : NodeKind) (startLine endLine : Nat) (children : List Node)

/-- The kind of a node. -/
def Node.kind : Node → NodeKind
  | .mk k _ _ _ => k

/-- The 0-based line of the node's start position. -/
def Node.startLine : Node → Nat
  | .mk _ s _ _ => s

/-- The 0-based line of the node's end position. -/
def Node.endLine : Node → Nat
  | .mk _ _ e _ => e

/-- The children of a node, in document order. -/
def Node.children : Node → List Node
  | .mk _ _ _ cs => cs

/-- The function-like test in `visitNode`: `isFunctionDeclaration ||
isMethodDeclaration || isArrowFunction || isFunctionExpression`. -/
def isFunctionLike : NodeKind → Bool
  | .functionDeclaration _ _ => true
  | .methodDeclaration _ _ => true
  | .arrowFunction _ => true
  | .functionExpression _ _ => true
  | _ => false

/-- The decision-point test in `calculateComplexity`'s `visit`: the nine
statement/clause kinds, plus a binary expression whose operator token is
`&&` or `||`. -/
def decisionInc : NodeKind → Bool
  | .ifStmt => true
  | .conditionalExpr => true
  | .whileStmt => true
  | .doStmt => true
  | .forStmt => true
  | .forInStmt => true
  | .forOfStmt => true
  | .caseClause => true
  | .catchClause => true
  | .binaryExpr .andAnd => true
  | .binaryExpr .orOr => true
  | _ => false

/-- The nesting-increasing test in `calculateMaxNesting`'s `visit`. -/
def nestingInc : NodeKind → Bool
  | .ifStmt => true
  | .whileStmt => true
  | .doStmt => true
  | .forStmt => true
  | .forInStmt => true
  | .forOfStmt => true
  | .tryStmt => true
  | .switchStmt => true
  | _ => false

mutual

/-- The recursive `visit` of `calculateComplexity`: the number of times the
captured `complexity` counter is incremented while visiting the subtree
rooted at a node, the node itself included. -/
def complexityVisit : Node → Nat
  | .mk k _ _ cs => (if decisionInc k then 1 else 0) + complexityVisitList cs

/-- `complexityVisit` summed over a child list (`ts.forEachChild`). -/
def complexityVisitList : List Node → Nat
  | [] => 0
  | c :: cs => complexityVisit c + complexityVisitList cs

end

/-- `ComplexityAnalyzer.calculateComplexity`: the counter starts at 1 (the
default path) and `visit` runs over the node's children. -/
def calculateComplexity (n : Node) : Nat :=
  1 + complexityVisitList n.children

mutual

/-- The recursive `visit` of `calculateMaxNesting`: the largest value the
captured `maxDepth` variable is updated to inside this subtree, given the
current depth (0 when no nesting-increasing node occurs, since `maxDepth`
is only written when one is entered). -/
def nestingVisit (d : Nat) : Node → Nat
  | .mk k _ _ cs =>
    if nestingInc k then max (d + 1) (nestingVisitList (d + 1) cs)
    else nestingVisitList d cs

/-- `nestingVisit` maximized over a child list. -/
def nestingVisitList (d : Nat) : List Node → Nat
  | [] => 0
  | c :: cs => max (nestingVisit d c) (nestingVisitList d cs)

end

/-- `ComplexityAnalyzer.calculateMaxNesting` with an explicit starting depth
(the source's default argument is 0): `maxDepth` starts at `depth` and is
raised by every nesting-increasing node entered below the given node. -/
def calculateMaxNesting (n : Node) (depth : Nat) : Nat :=
  max depth (nestingVisitList depth n.children)

/-- `ComplexityAnalyzer.getFunctionName`.  For function declarations and
method declarations it is `node.name?.getText() || "(anonymous)"` (the JS
`||` also replaces an empty name text by the sentinel); for arrow functions
and function expressions only the parent node is inspected. -/
def getFunctionName (parentKind : NodeKind) (k : NodeKind) : String :=
  match k with
  | .functionDeclaration name _ =>
    match name with
    | some s => if s = "" then "(anonymous)" else s
    | none => "(anonymous)"
  | .methodDeclaration name _ =>
    match name with
    | some s => if s = "" then "(anonymous)" else s
    | none => "(anonymous)"
  | _ =>
    match parentKind with
    | .variableDeclaration vn => vn
    | .propertyAssignment pn => pn
    | _ => "(anonymous)"

/-- `ComplexityAnalyzer.countLines`: `endLine - startLine + 1` over the
parser's (number-valued) line mapping. -/
def countLines (n : Node) : Int :=
  (n.endLine : Int) - (n.startLine : Int) + 1

/-- `ComplexityAnalyzer.countParameters`: `node.parameters.length`. -/
def countParameters : NodeKind → Nat
  | .functionDeclaration _ p => p
  | .methodDeclaration _ p => p
  | .arrowFunction p => p
  | .functionExpression _ p => p
  | _ => 0

/-- The `FunctionComplexity` interface of the script, one record per
discovered function-like node. -/
structure FunctionComplexity where
  name : String
  filePath : String
  lineNumber : Nat
  cyclomaticComplexity : Nat
  linesOfCode : Int
  maxNestingDepth : Nat
  parameterCount : Nat
deriving DecidableEq, Repr

/-- `ComplexityAnalyzer.analyzeFunctionNode`: the record pushed for a
function-like node (`lineNumber` is the 0-based start line plus 1). -/
def analyzeFunctionNode (filePath : String) (parentKind : NodeKind)
    (n : Node) : FunctionComplexity :=
  { name := getFunctionName parentKind n.kind
    filePath := filePath
    lineNumber := n.startLine + 1
    cyclomaticComplexity := calculateComplexity n
    linesOfCode := countLines n
    maxNestingDepth := calculateMaxNesting n 0
    parameterCount := countParameters n.kind }

mutual

/-- `ComplexityAnalyzer.visitNode`: pre-order traversal appending a record
for every function-like node to the accumulated `this.functions` list.  The
parent's kind is threaded down because `getFunctionName` reads
`node.parent`. -/
def visitNode (fp : String) (parentKind : NodeKind)
    (acc : List FunctionComplexity) : Node → List FunctionComplexity
  | .mk k s e cs =>
    visitChildren fp k
      (if isFunctionLike k then
        acc ++ [analyzeFunctionNode fp parentKind (.mk k s e cs)]
      else acc) cs

/-- `visitNode` folded left over a child list, threading the accumulator. -/
def visitChildren (fp : String) (parentKind : NodeKind)
    (acc : List FunctionComplexity) : List Node → List FunctionComplexity
  | [] => acc
  | c :: cs => visitChildren fp parentKind (visitNode fp parentKind acc c) cs

end

/-- A parsed source file, as produced by `ts.createSourceFile`: the file
name it was given and the root node. -/
structure SourceFile where
  fileName : String
  root : Node

/-- What can be thrown inside the `try` block of
`ComplexityAnalyzer.analyze`: a `fs.readFileSync` failure, a parser
failure, or an exception raised while visiting the tree (a
calculator-level error). -/
inductive AnalysisError where
  | readError
  | parseError
  | calculatorError
deriving DecidableEq, Repr

/-- `ComplexityAnalyzer.analyze`.  The instance state is the
`this.functions` array, passed in and returned next to the method's return
value.  The whole body (read, parse, visit) runs inside one `try`: a
successful run appends the file's records to the state and returns the
state; any thrown error is caught, logged, and the empty list returned with
the state untouched. -/
def ComplexityAnalyzer.analyze (input : Except AnalysisError SourceFile)
    (functions : List FunctionComplexity) :
    List FunctionComplexity × List FunctionComplexity :=
  match input with
  | .ok sf =>
    let fns := visitNode sf.fileName .otherKind functions sf.root
    (fns, fns)
  | .error _ => (functions, [])

/-- `analyzeFile`: constructs a fresh `ComplexityAnalyzer` (empty state) on
every invocation and returns what `analyze` returns. -/
def analyzeFile (input : Except AnalysisError SourceFile) :
    List FunctionComplexity :=
  (ComplexityAnalyzer.analyze input []).2

/-- One entry of a directory listing: a file (with the outcome of reading
and parsing it) or a subdirectory with its own listing. -/
inductive DirEntry where
  | file (name : String) (contents : Except AnalysisError SourceFile)
  | dir (name : String) (entries : List DirEntry)

/-- The subdirectory filter in `analyzeDirectory`'s `walk`: skip
dot-directories, `node_modules` and `dist`. -/
def walkIntoDir (name : String) : Bool :=
  !name.startsWith "." && name != "node_modules" && name != "dist"

/-- The extension filter in `analyzeDirectory`'s `walk`. -/
def matchesExt (extensions : List String) (name : String) : Bool :=
  extensions.any (fun ext => name.endsWith ext)

mutual

/-- `analyzeDirectory`'s `walk` on a single entry: the records the entry
contributes to `allFunctions`. -/
def walkEntry (extensions : List String) : DirEntry → List FunctionComplexity
  | .dir name es => if walkIntoDir name then walkEntries extensions es else []
  | .file name contents =>
    if matchesExt extensions name then analyzeFile contents else []

/-- `walk` over a directory listing, in order; `allFunctions.push(...)`
concatenates each file's records. -/
def walkEntries (extensions : List String) :
    List DirEntry → List FunctionComplexity
  | [] => []
  | e :: es => walkEntry extensions e ++ walkEntries extensions es

end

/-- `analyzeDirectory` with its default extension list. -/
def analyzeDirectory (entries : List DirEntry) : List FunctionComplexity :=
  walkEntries [".ts", ".tsx", ".js", ".jsx"] entries

/-- `getComplexityRating`: the band labels printed by the script (단순 =
simple, 보통 = moderate, 복잡 = complex, 매우 복잡 = very complex). -/
def getComplexityRating (complexity : Nat) : String :=
  if complexity ≤ 10 then "단순"
  else if complexity ≤ 20 then "보통"
  else if complexity ≤ 50 then "복잡"
  else "매우 복잡"

/-- The `simple` tally of `printSummary`'s distribution:
`cyclomaticComplexity <= 10`. -/
def countSimple (fs : List FunctionComplexity) : Nat :=
  (fs.filter (fun f => decide (f.cyclomaticComplexity ≤ 10))).length

/-- The `moderate` tally: `11 <= cyclomaticComplexity <= 20`. -/
def countModerate (fs : List FunctionComplexity) : Nat :=
  (fs.filter (fun f =>
    decide (11 ≤ f.cyclomaticComplexity) && decide (f.cyclomaticComplexity ≤ 20))).length

/-- The `complex` tally: `21 <= cyclomaticComplexity <= 50`. -/
def countComplexBand (fs : List FunctionComplexity) : Nat :=
  (fs.filter (fun f =>
    decide (21 ≤ f.cyclomaticComplexity) && decide (f.cyclomaticComplexity ≤ 50))).length

/-- The `very complex` tally: `cyclomaticComplexity > 50`. -/
def countVeryComplex (fs : List FunctionComplexity) : Nat :=
  (fs.filter (fun f => decide (50 < f.cyclomaticComplexity))).length

/-- The sort in `printSummary`: `functions.sort((a, b) =>
b.cyclomaticComplexity - a.cyclomaticComplexity)`.  `Array.prototype.sort`
is stable (required since ES2019) and its comparator here puts `a` no later
than `b` exactly when `b.cyclomaticComplexity ≤ a.cyclomaticComplexity`, so
the call is modelled by a stable merge sort under that relation. -/
def rank (fs : List FunctionComplexity) : List FunctionComplexity :=
  fs.mergeSort (fun a b => decide (b.cyclomaticComplexity ≤ a.cyclomaticComplexity))

/-- The state of the caller's `functions` array after `printSummary`
returns: `printSummary` returns early on an empty array; otherwise
`Array.prototype.sort` reorders the array in place and no later statement
mutates the array or its records. -/
def printSummaryArrayAfter (fs : List FunctionComplexity) :
    List FunctionComplexity :=
  if fs.length = 0 then fs else rank fs

/-! Specification-side definitions, written from the spec's wording, to be
compared with the definitions translated from the source. -/

/-- Decision-point kinds as the specification lists them: `if`, ternary
conditional, `while`, `do-while`, `for`, `for-in`, `for-of`, `switch`-case
clause, `catch` clause, and a binary expression whose operator is `&&` or
`||`; the `switch` statement node itself is excluded. -/
def specDecisionKind : NodeKind → Bool
  | .ifStmt => true
  | .conditionalExpr => true
  | .whileStmt => true
  | .doStmt => true
  | .forStmt => true
  | .forInStmt => true
  | .forOfStmt => true
  | .caseClause => true
  | .catchClause => true
  | .binaryExpr op => op = .andAnd || op = .orOr
  | _ => false

mutual

/-- All nodes of the subtree rooted at a node, the root included, in
document order. -/
def subtreeNodes : Node → List Node
  | .mk k s e cs => .mk k s e cs :: subtreeNodesList cs

/-- `subtreeNodes` concatenated over a child list. -/
def subtreeNodesList : List Node → List Node
  | [] => []
  | c :: cs => subtreeNodes c ++ subtreeNodesList cs

end

/-- The proper descendants of a node: every node of its subtree except the
node itself (this includes the bodies of any nested function literal). -/
def descendants (n : Node) : List Node :=
  subtreeNodesList n.children

/-- Nesting-increasing kinds as the specification lists them: `if`,
`while`, `do-while`, `for`, `for-in`, `for-of`, `try` (once for the whole
statement, catch/finally adding nothing) and `switch` (once regardless of
its case count). -/
def specNestingKind : NodeKind → Bool
  | .ifStmt => true
  | .whileStmt => true
  | .doStmt => true
  | .forStmt => true
  | .forInStmt => true
  | .forOfStmt => true
  | .tryStmt => true
  | .switchStmt => true
  | _ => false

mutual

/-- Every node of a subtree paired with the depth reached on entering it:
depth rises by exactly 1 at each nesting-increasing node and is otherwise
passed through unchanged — in particular it is not reset when the traversal
enters a nested function literal. -/
def depthEntries (d : Nat) : Node → List (NodeKind × Nat)
  | .mk k _ _ cs =>
    (k, if specNestingKind k then d + 1 else d) ::
      depthEntriesList (if specNestingKind k then d + 1 else d) cs

/-- `depthEntries` concatenated over a child list at a common depth. -/
def depthEntriesList (d : Nat) : List Node → List (NodeKind × Nat)
  | [] => []
  | c :: cs => depthEntries d c ++ depthEntriesList d cs

end

/-- The maximum depth reached at a nesting-increasing construct when the
function's own body starts at depth 0 (0 when there is none). -/
def specMaxNesting (n : Node) : Nat :=
  ((depthEntriesList 0 n.children).filterMap
    (fun p => if specNestingKind p.1 then some p.2 else none)).foldr max 0

/-- The declared or method name of a function-like node, as the spec's
step 1 reads it: function declarations, method declarations and function
expressions may carry one; arrow functions never do. -/
def declaredName : NodeKind → Option String
  | .functionDeclaration name _ => name
  | .methodDeclaration name _ => name
  | .functionExpression name _ => name
  | _ => none

/-- Name resolution exactly as the claim words it: (1) the node's declared
or method name if present; (2) otherwise the enclosing variable
declaration's name; (3) otherwise the enclosing property assignment's
name; (4) otherwise the sentinel. -/
def specResolveName (parentKind : NodeKind) (k : NodeKind) : String :=
  match declaredName k with
  | some s => s
  | none =>
    match parentKind with
    | .variableDeclaration vn => vn
    | .propertyAssignment pn => pn
    | _ => "(anonymous)"

/-- Name resolution as amended: the declared name is consulted only for
function declarations and method declarations (with the empty-text name
falling back to the sentinel); arrow functions and function expressions —
their own declared name ignored — take the enclosing variable
declaration's name, else the enclosing property assignment's name, else
the sentinel. -/
def amendedResolveName (parentKind : NodeKind) (k : NodeKind) : String :=
  match k with
  | .functionDeclaration (some s) _ => if s = "" then "(anonymous)" else s
  | .functionDeclaration none _ => "(anonymous)"
  | .methodDeclaration (some s) _ => if s = "" then "(anonymous)" else s
  | .methodDeclaration none _ => "(anonymous)"
  | _ =>
    match parentKind with
    | .variableDeclaration vn => vn
    | .propertyAssignment pn => pn
    | _ => "(anonymous)"

/-- The name payloads `getFunctionName` may return verbatim are nonempty:
the guarantee a real parse gives, since a variable declaration's or
property assignment's name text is a nonempty identifier or literal. -/
def kindNamesOk : NodeKind → Bool
  | .variableDeclaration n => n ≠ ""
  | .propertyAssignment n => n ≠ ""
  | _ => true

mutual

/-- Well-formedness a real parser guarantees for every node of a parsed
file: the end position is not before the start position, and name texts
are nonempty. -/
def Node.wf : Node → Bool
  | .mk k s e cs => kindNamesOk k && decide (s ≤ e) && Node.wfList cs

/-- `Node.wf` over a child list. -/
def Node.wfList : List Node → Bool
  | [] => true
  | c :: cs => Node.wf c && Node.wfList cs

end

/-! Supporting lemmas. -/

/-- The source's decision-point predicate agrees with the one the spec
lists. -/
theorem decisionInc_eq_spec (k : NodeKind) : decisionInc k = specDecisionKind k := by
  cases k <;> try rfl
  rename_i op
  cases op <;> rfl

/-- The source's nesting predicate agrees with the one the spec lists. -/
theorem nestingInc_eq_spec (k : NodeKind) : nestingInc k = specNestingKind k := by
  cases k <;> rfl

mutual

/-- The complexity visit counts exactly the decision-point nodes of the
subtree, the root included. -/
theorem complexityVisit_eq_count : (n : Node) →
    complexityVisit n =
      ((subtreeNodes n).filter (fun m => specDecisionKind m.kind)).length
  | .mk k s e cs => by
    rw [complexityVisit, subtreeNodes, List.filter_cons,
      complexityVisitList_eq_count cs, decisionInc_eq_spec k]
    show (if specDecisionKind (Node.mk k s e cs).kind then 1 else 0) + _ = _
    cases h : specDecisionKind (Node.mk k s e cs).kind <;>
      simp [h, Nat.add_comm]

/-- List form of `complexityVisit_eq_count`. -/
theorem complexityVisitList_eq_count : (ns : List Node) →
    complexityVisitList ns =
      ((subtreeNodesList ns).filter (fun m => specDecisionKind m.kind)).length
  | [] => rfl
  | c :: cs => by
    rw [complexityVisitList, subtreeNodesList, List.filter_append,
      List.length_append, complexityVisit_eq_count c,
      complexityVisitList_eq_count cs]

end

/-- Folding `max` from 0 distributes over list concatenation. -/
theorem foldr_max_append (a b : List Nat) :
    (a ++ b).foldr max 0 = max (a.foldr max 0) (b.foldr max 0) := by
  induction a with
  | nil => simp
  | cons x xs ih => simp [ih, Nat.max_assoc]

mutual

/-- The nesting visit computes the maximum depth recorded at the
nesting-increasing nodes of the subtree. -/
theorem nestingVisit_eq_spec : (d : Nat) → (n : Node) →
    nestingVisit d n =
      ((depthEntries d n).filterMap
        (fun p => if specNestingKind p.1 then some p.2 else none)).foldr max 0
  | d, .mk k s e cs => by
    rw [nestingVisit, depthEntries, List.filterMap_cons, nestingInc_eq_spec k]
    cases h : specNestingKind k <;>
      simp [h, nestingVisitList_eq_spec _ cs]

/-- List form of `nestingVisit_eq_spec`. -/
theorem nestingVisitList_eq_spec : (d : Nat) → (ns : List Node) →
    nestingVisitList d ns =
      ((depthEntriesList d ns).filterMap
        (fun p => if specNestingKind p.1 then some p.2 else none)).foldr max 0
  | _, [] => rfl
  | d, c :: cs => by
    rw [nestingVisitList, depthEntriesList, List.filterMap_append,
      foldr_max_append, nestingVisit_eq_spec d c,
      nestingVisitList_eq_spec d cs]

end

/-- C1: for every node — in particular every function-like node — the
computed cyclomatic complexity equals 1 plus the number of nodes in its
subtree (the bodies of nested functions included) that are an if, a
ternary conditional, a while, do-while, for, for-in or for-of, a switch
case clause, a catch clause, or a binary expression with operator `&&` or
`||`; the switch statement node itself contributes no increment. -/
theorem calculateComplexity_eq_one_add_decisionPoints (n : Node) :
    calculateComplexity n =
      1 + ((descendants n).filter (fun m => specDecisionKind m.kind)).length := by
  rw [calculateComplexity, descendants, complexityVisitList_eq_count]

/-- C2: the computed maximum nesting depth equals the maximum depth
reached when the function's own body starts at depth 0 and depth rises by
exactly 1 on entering each if, while, do-while, for, for-in, for-of, try
or switch node (switch and try each counted once, catch/finally adding
nothing), the traversal passing into nested function literals without
resetting the depth. -/
theorem calculateMaxNesting_eq_spec (n : Node) :
    calculateMaxNesting n 0 = specMaxNesting n := by
  rw [calculateMaxNesting, specMaxNesting, nestingVisitList_eq_spec]
  simp

/-- The parse tree of `const myFunc = function inner() {}`, reduced to the
nodes the analyzer inspects. -/
def namedFunctionExpressionFile : SourceFile :=
  ⟨"test.ts",
    .mk .sourceFileKind 0 0
      [.mk (.variableDeclaration "myFunc") 0 0
        [.mk (.functionExpression (some "inner") 0) 0 0 []]]⟩

/-- C3 counterexample: for a named function expression assigned to a
variable, the claimed precedence resolves the declared name `inner`, but
`getFunctionName` never consults a function expression's own name and the
analysis records the variable's name `myFunc` instead. -/
theorem getFunctionName_precedence_counterexample :
    (analyzeFile (.ok namedFunctionExpressionFile)).map (fun r => r.name) = ["myFunc"] ∧
    specResolveName (.variableDeclaration "myFunc")
      (.functionExpression (some "inner") 0) = "inner" ∧
    getFunctionName (.variableDeclaration "myFunc")
      (.functionExpression (some "inner") 0) ≠
      specResolveName (.variableDeclaration "myFunc")
        (.functionExpression (some "inner") 0) := by
  refine ⟨rfl, rfl, ?_⟩
  decide

/-- C3 amended: the resolved display name follows the precedence with
step 1 restricted to function declarations and method declarations — an
arrow function's or function expression's own declared name is never
consulted; such a node takes the enclosing variable declaration's name,
else the enclosing property assignment's name, else `"(anonymous)"` (and
a declaration or method whose name text is empty also falls back to the
sentinel). -/
theorem getFunctionName_eq_amendedResolveName (parentKind k : NodeKind) :
    getFunctionName parentKind k = amendedResolveName parentKind k := by
  cases parentKind <;> cases k <;> try rfl
  all_goals
    rename_i nm _
    cases nm <;> rfl

/-- C4: `getComplexityRating` maps each complexity value to exactly one
band — 단순 (simple) iff `c ≤ 10`, 보통 (moderate) iff `11 ≤ c ≤ 20`, 복잡
(complex) iff `21 ≤ c ≤ 50`, 매우 복잡 (very complex) iff `51 ≤ c` — and
`printSummary`'s four band tallies always sum to the record count. -/
theorem complexityBand_partition :
    (∀ c : Nat,
      (getComplexityRating c = "단순" ↔ c ≤ 10) ∧
      (getComplexityRating c = "보통" ↔ 11 ≤ c ∧ c ≤ 20) ∧
      (getComplexityRating c = "복잡" ↔ 21 ≤ c ∧ c ≤ 50) ∧
      (getComplexityRating c = "매우 복잡" ↔ 51 ≤ c)) ∧
    ∀ fs : List FunctionComplexity,
      countSimple fs + countModerate fs + countComplexBand fs +
        countVeryComplex fs = fs.length := by
  constructor
  · intro c
    refine ⟨?_, ?_, ?_, ?_⟩ <;>
      · rw [getComplexityRating]
        split_ifs <;>
          first
          | exact iff_of_true rfl (by omega)
          | exact iff_of_false (by decide) (by omega)
  · intro fs
    induction fs with
    | nil => rfl
    | cons f fs ih =>
      rw [countSimple, countModerate, countComplexBand, countVeryComplex] at ih ⊢
      simp only [List.filter_cons, Bool.and_eq_true, decide_eq_true_eq]
      split_ifs <;> simp only [List.length_cons] <;> omega

/-- The ranking comparator relation is transitive. -/
theorem rankLe_trans (a b c : FunctionComplexity)
    (h₁ : decide (b.cyclomaticComplexity ≤ a.cyclomaticComplexity) = true)
    (h₂ : decide (c.cyclomaticComplexity ≤ b.cyclomaticComplexity) = true) :
    decide (c.cyclomaticComplexity ≤ a.cyclomaticComplexity) = true := by
  simp only [decide_eq_true_eq] at h₁ h₂ ⊢
  omega

/-- The ranking comparator relation is total. -/
theorem rankLe_total (a b : FunctionComplexity) :
    (decide (b.cyclomaticComplexity ≤ a.cyclomaticComplexity) ||
      decide (a.cyclomaticComplexity ≤ b.cyclomaticComplexity)) = true := by
  simp only [Bool.or_eq_true, decide_eq_true_eq]
  omega

/-- The ranking sort permutes the input. -/
theorem rank_perm (fs : List FunctionComplexity) : List.Perm (rank fs) fs :=
  List.mergeSort_perm fs _

/-- The ranking sort's output is descending in cyclomatic complexity. -/
theorem rank_pairwise (fs : List FunctionComplexity) :
    List.Pairwise
      (fun a b => b.cyclomaticComplexity ≤ a.cyclomaticComplexity) (rank fs) := by
  have h := List.sorted_mergeSort rankLe_trans rankLe_total fs
  exact h.imp (fun hab => by simpa using hab)

/-- C5: the ranking sort of `printSummary` returns the records in
descending order of cyclomatic complexity, as a permutation of the input,
and any two records of equal complexity keep their original relative
discovery order (JS `Array.prototype.sort` is stable). -/
theorem rank_descending_stable (fs : List FunctionComplexity) :
    List.Perm (rank fs) fs ∧
    List.Pairwise
      (fun a b => b.cyclomaticComplexity ≤ a.cyclomaticComplexity) (rank fs) ∧
    ∀ a b : FunctionComplexity,
      a.cyclomaticComplexity = b.cyclomaticComplexity →
      List.Sublist [a, b] fs → List.Sublist [a, b] (rank fs) := by
  refine ⟨rank_perm fs, rank_pairwise fs, ?_⟩
  intro a b heq hsub
  exact List.pair_sublist_mergeSort rankLe_trans rankLe_total (by simp [heq]) hsub

/-- A record with complexity 3 discovered first. -/
def rankWitnessA : FunctionComplexity := ⟨"a", "w.ts", 1, 3, 1, 0, 0⟩

/-- A distinct record with the same complexity discovered second. -/
def rankWitnessB : FunctionComplexity := ⟨"b", "w.ts", 2, 3, 1, 0, 0⟩

/-- C5 witness: two equal-complexity records stay in discovery order. -/
theorem rank_descending_stable_witness :
    List.Sublist [rankWitnessA, rankWitnessB] (rank [rankWitnessA, rankWitnessB]) :=
  (rank_descending_stable [rankWitnessA, rankWitnessB]).2.2 rankWitnessA rankWitnessB
    (by decide) (List.Sublist.refl _)

/-- `walkEntries` distributes over concatenated directory listings. -/
theorem walkEntries_append (extensions : List String) (a b : List DirEntry) :
    walkEntries extensions (a ++ b) =
      walkEntries extensions a ++ walkEntries extensions b := by
  induction a with
  | nil => simp [walkEntries]
  | cons e es ih => simp [walkEntries, ih]

/-- C6: a file whose read or parse fails contributes zero records to the
aggregate and raises nothing to the caller (`analyzeFile` returns the
empty list), and a directory walk containing the failing file yields
exactly the records of the remaining entries, unaffected. -/
theorem fileFailure_isolated (extensions : List String) (es₁ es₂ : List DirEntry)
    (name : String) (err : AnalysisError) :
    analyzeFile (.error err) = [] ∧
    walkEntries extensions (es₁ ++ DirEntry.file name (.error err) :: es₂) =
      walkEntries extensions es₁ ++ walkEntries extensions es₂ := by
  refine ⟨rfl, ?_⟩
  rw [walkEntries_append, walkEntries]
  have hfail : walkEntry extensions (DirEntry.file name (.error err)) = [] := by
    rw [walkEntry]
    cases matchesExt extensions name <;> simp [analyzeFile, ComplexityAnalyzer.analyze]
  rw [hfail, List.nil_append]

/-- C7 counterexample: a calculator-level error raised while visiting the
tree is caught by the same per-file try/catch — analyze returns normally
with the empty record list, the silent default the claim rules out,
instead of propagating the error. -/
theorem analyze_swallows_calculatorError :
    ComplexityAnalyzer.analyze (.error .calculatorError) [] = ([], []) := rfl

/-- C7 amended: every error thrown inside analyze's try block — a
calculator-level error included — is caught; analyze returns the empty
record list with the accumulated state untouched, and propagates
nothing. -/
theorem analyze_catches_every_error (err : AnalysisError)
    (st : List FunctionComplexity) :
    ComplexityAnalyzer.analyze (.error err) st = (st, []) := rfl

mutual

/-- Visiting a node from any accumulated state appends exactly the records
it would produce from the empty state. -/
theorem visitNode_append : (fp : String) → (pk : NodeKind) →
    (acc : List FunctionComplexity) → (n : Node) →
    visitNode fp pk acc n = acc ++ visitNode fp pk [] n
  | fp, pk, acc, .mk k s e cs => by
    rw [visitNode, visitNode]
    cases hk : isFunctionLike k
    · simpa using visitChildren_append fp k acc cs
    · rw [if_pos rfl, if_pos rfl, List.nil_append]
      rw [visitChildren_append fp k
          (acc ++ [analyzeFunctionNode fp pk (Node.mk k s e cs)]) cs,
        visitChildren_append fp k
          [analyzeFunctionNode fp pk (Node.mk k s e cs)] cs,
        List.append_assoc]

/-- List form of `visitNode_append`. -/
theorem visitChildren_append : (fp : String) → (pk : NodeKind) →
    (acc : List FunctionComplexity) → (ns : List Node) →
    visitChildren fp pk acc ns = acc ++ visitChildren fp pk [] ns
  | _, _, acc, [] => by simp [visitChildren]
  | fp, pk, acc, c :: cs => by
    rw [visitChildren, visitChildren,
      visitChildren_append fp pk (visitNode fp pk acc c) cs,
      visitChildren_append fp pk (visitNode fp pk [] c) cs,
      visitNode_append fp pk acc c, List.append_assoc]

end

/-- C9: one analyzer instance never clears its accumulator: a second
analyze call on the same instance returns the first call's records
followed by the second file's own records; and `analyzeFile` returns only
the given file's records precisely because it runs a fresh instance with
empty state. -/
theorem analyze_accumulates_across_calls (sf₁ sf₂ : SourceFile) :
    (ComplexityAnalyzer.analyze (.ok sf₂)
        (ComplexityAnalyzer.analyze (.ok sf₁) []).1).2 =
      (ComplexityAnalyzer.analyze (.ok sf₁) []).2 ++ analyzeFile (.ok sf₂) ∧
    analyzeFile (.ok sf₂) = (ComplexityAnalyzer.analyze (.ok sf₂) []).2 := by
  refine ⟨?_, rfl⟩
  show visitNode sf₂.fileName .otherKind
      (visitNode sf₁.fileName .otherKind [] sf₁.root) sf₂.root = _
  rw [visitNode_append sf₂.fileName .otherKind
    (visitNode sf₁.fileName .otherKind [] sf₁.root) sf₂.root]
  rfl

/-- C10: after `printSummary` returns, the caller's array — sorted in
place by `Array.prototype.sort` — holds exactly the same records, none
mutated, reordered descending by cyclomatic complexity. -/
theorem printSummary_sorts_callers_array (fs : List FunctionComplexity) :
    List.Perm (printSummaryArrayAfter fs) fs ∧
    List.Pairwise (fun a b => b.cyclomaticComplexity ≤ a.cyclomaticComplexity)
      (printSummaryArrayAfter fs) := by
  rw [printSummaryArrayAfter]
  split_ifs with h
  · rw [List.length_eq_zero.mp h]
    exact ⟨List.Perm.refl _, List.Pairwise.nil⟩
  · exact ⟨rank_perm fs, rank_pairwise fs⟩

/-- The per-record invariants of the spec, plus the nonempty-name
guarantee. -/
def recordInv (r : FunctionComplexity) : Prop :=
  1 ≤ r.cyclomaticComplexity ∧ 1 ≤ r.linesOfCode ∧ 0 ≤ r.maxNestingDepth ∧
    0 ≤ r.parameterCount ∧ 1 ≤ r.lineNumber ∧ r.name ≠ ""

/-- When the parent's name payload (if any) is nonempty, `getFunctionName`
never returns the empty string: declared names fall back to the sentinel
through the JS `||`, and parent-derived names are nonempty by
assumption. -/
theorem stringAnonymous_ne_empty : ("(anonymous)" : String) ≠ "" := by decide

theorem getFunctionName_ne_empty (pk k : NodeKind) (h : kindNamesOk pk = true) :
    getFunctionName pk k ≠ "" := by
  cases pk <;> cases k <;>
    first
    | exact of_decide_eq_true h
    | exact stringAnonymous_ne_empty
    | (rename_i nm _
       rcases nm with _ | s
       · exact stringAnonymous_ne_empty
       · by_cases hs : s = ""
         · subst hs
           exact stringAnonymous_ne_empty
         · show (if s = "" then "(anonymous)" else s) ≠ ""
           rw [if_neg hs]
           exact hs)

/-- `analyzeFunctionNode` produces a record satisfying the invariants
whenever the node's line span is ordered and the parent's name payload is
nonempty. -/
theorem analyzeFunctionNode_inv (fp : String) (pk : NodeKind) (n : Node)
    (hse : n.startLine ≤ n.endLine) (hpk : kindNamesOk pk = true) :
    recordInv (analyzeFunctionNode fp pk n) := by
  refine ⟨?_, ?_, Nat.zero_le _, Nat.zero_le _, ?_, ?_⟩
  · exact Nat.le_add_right 1 _
  · show (1 : Int) ≤ (n.endLine : Int) - (n.startLine : Int) + 1
    omega
  · exact Nat.le_add_left 1 _
  · exact getFunctionName_ne_empty pk n.kind hpk

mutual

/-- Every record accumulated by visiting a well-formed node satisfies the
invariants, provided the already-accumulated records do and the parent's
name payload is nonempty. -/
theorem visitNode_inv : (fp : String) → (pk : NodeKind) →
    (acc : List FunctionComplexity) → (n : Node) →
    kindNamesOk pk = true → Node.wf n = true →
    (∀ r ∈ acc, recordInv r) →
    ∀ r ∈ visitNode fp pk acc n, recordInv r
  | fp, pk, acc, .mk k s e cs, hpk, hwf, hacc => by
    rw [Node.wf] at hwf
    simp only [Bool.and_eq_true, decide_eq_true_eq] at hwf
    obtain ⟨⟨hk, hse⟩, hcs⟩ := hwf
    rw [visitNode]
    apply visitChildren_inv fp k _ cs hk hcs
    intro r hr
    cases hfn : isFunctionLike k
    · rw [if_neg (by simp [hfn])] at hr
      exact hacc r hr
    · rw [if_pos (by simp [hfn])] at hr
      rcases List.mem_append.mp hr with hmem | hmem
      · exact hacc r hmem
      · rw [List.mem_singleton.mp hmem]
        exact analyzeFunctionNode_inv fp pk (.mk k s e cs) hse hpk

/-- List form of `visitNode_inv`. -/
theorem visitChildren_inv : (fp : String) → (pk : NodeKind) →
    (acc : List FunctionComplexity) → (ns : List Node) →
    kindNamesOk pk = true → Node.wfList ns = true →
    (∀ r ∈ acc, recordInv r) →
    ∀ r ∈ visitChildren fp pk acc ns, recordInv r
  | _, _, acc, [], _, _, hacc => by
    rw [visitChildren]
    exact hacc
  | fp, pk, acc, c :: cs, hpk, hwf, hacc => by
    rw [Node.wfList] at hwf
    simp only [Bool.and_eq_true] at hwf
    rw [visitChildren]
    exact visitChildren_inv fp pk _ cs hpk hwf.2
      (visitNode_inv fp pk acc c hpk hwf.1 hacc)

end

/-- C8: every record produced by analyzing a well-formed parse tree has
cyclomatic complexity at least 1, at least one line of code, nonnegative
nesting depth and parameter count, a 1-based line number at least 1, and a
nonempty name (anonymous constructs get the sentinel). -/
theorem analyzeFile_record_invariants (sf : SourceFile)
    (hwf : Node.wf sf.root = true) :
    ∀ r ∈ analyzeFile (.ok sf),
      1 ≤ r.cyclomaticComplexity ∧ 1 ≤ r.linesOfCode ∧
        0 ≤ r.maxNestingDepth ∧ 0 ≤ r.parameterCount ∧
        1 ≤ r.lineNumber ∧ r.name ≠ "" := by
  intro r hr
  exact visitNode_inv sf.fileName .otherKind [] sf.root rfl hwf
    (by intro r hr; cases hr) r hr

/-- A small well-formed parse tree: a file holding one function
declaration `foo` with one parameter and a single if statement. -/
def wfWitnessFile : SourceFile :=
  ⟨"sample.ts",
    .mk .sourceFileKind 0 5
      [.mk (.functionDeclaration (some "foo") 1) 1 4
        [.mk .ifStmt 2 3 []]]⟩

/-- The record the analysis produces for `foo`. -/
def wfWitnessRecord : FunctionComplexity :=
  ⟨"foo", "sample.ts", 2, 2, 4, 1, 1⟩

/-- C8 witness: the invariants hold at the concrete record the analysis of
`wfWitnessFile` produces. -/
theorem analyzeFile_record_invariants_witness :
    Node.wf wfWitnessFile.root = true ∧
    wfWitnessRecord ∈ analyzeFile (.ok wfWitnessFile) ∧
    (1 ≤ wfWitnessRecord.cyclomaticComplexity ∧ 1 ≤ wfWitnessRecord.linesOfCode ∧
      0 ≤ wfWitnessRecord.maxNestingDepth ∧ 0 ≤ wfWitnessRecord.parameterCount ∧
      1 ≤ wfWitnessRecord.lineNumber ∧ wfWitnessRecord.name ≠ "") :=
  ⟨by decide, by decide,
    analyzeFile_record_invariants wfWitnessFile (by decide) wfWitnessRecord (by decide)⟩

end CodeReview
